import Mathlib

/-!
Request instrumentation: timer, middleware and handlers.

Shallow embedding of `metrics/prometheus/02/main.go` and
`metrics/expvar/01/server.go`.

Conventions of the embedding:

* Go `int` (64-bit platform) and `time.Duration` are `Int` values kept in the
  two's-complement range by `wrap64` after every arithmetic operation.
* A monotonic clock reading (`time.Time`) is an `Int` number of nanoseconds.
* The embedding is sequential: a mutex is part of the state and its
  acquisition always succeeds at once.
* A call either returns or panics (`Exit`); deferred calls run in both cases.
-/

set_option autoImplicit false

/-- A Go `string`. -/
abbrev GoString := String

/-! ## Machine integers -/

/-- Smallest value of a 64-bit signed integer. -/
def minInt64 : Int := -9223372036854775808

/-- Largest value of a 64-bit signed integer. -/
def maxInt64 : Int := 9223372036854775807

/-- Two's-complement reduction of a mathematical integer to 64 bits. -/
def wrap64 (x : Int) : Int := (x + 9223372036854775808) % 18446744073709551616 - 9223372036854775808

/-- Membership in the range of a 64-bit signed integer. -/
def inInt64 (x : Int) : Prop := minInt64 ≤ x ∧ x ≤ maxInt64

instance (x : Int) : Decidable (inInt64 x) := by unfold inInt64; infer_instance

/-- Go `a / b` on 64-bit signed integers: `none` is the run-time panic on a zero
divisor; otherwise the quotient truncated toward zero, reduced to 64 bits. -/
def goDiv (a b : Int) : Option Int :=
  if b = 0 then none else some (wrap64 (Int.tdiv a b))

/-- The verb `%d` of `fmt` on a signed integer. -/
def fmtD (x : Int) : GoString :=
  match x with
  | Int.ofNat n => Nat.repr n
  | Int.negSucc n => "-" ++ Nat.repr (n + 1)

/-! ## Time -/

/-- A monotonic clock reading, in nanoseconds. -/
abbrev Time := Int

/-- A `time.Duration`, in nanoseconds. -/
abbrev Duration := Int

/-- The elapsed duration `time.Since(t)` read when the clock shows `now`: the
difference of the readings, saturated to the range of `time.Duration`. -/
def Since (now t : Time) : Duration :=
  if now - t > maxInt64 then maxInt64
  else if now - t < minInt64 then minInt64
  else now - t

/-! ## sync.RWMutex -/

/-- State of a `sync.RWMutex`: whether the write lock is held and the number of
read locks held. -/
structure RWMutex where
  writer : Bool := false
  readers : Nat := 0
deriving DecidableEq, Repr

namespace RWMutex

def Lock (m : RWMutex) : RWMutex := { m with writer := true }

def Unlock (m : RWMutex) : RWMutex := { m with writer := false }

def RLock (m : RWMutex) : RWMutex := { m with readers := m.readers + 1 }

def RUnlock (m : RWMutex) : RWMutex := { m with readers := m.readers - 1 }

end RWMutex

/-! ## myTimer -/

/-- The type `myTimer` of `main.go`. -/
structure myTimer where
  mu : RWMutex := {}
  count : Int := 0
  sum : Duration := 0
deriving DecidableEq, Repr

namespace myTimer

/-- The zero value `var t myTimer`. -/
def zero : myTimer := {}

/-- Both integer fields hold 64-bit values. -/
def inRange (v : myTimer) : Prop := inInt64 v.count ∧ inInt64 v.sum

instance (v : myTimer) : Decidable v.inRange := by unfold inRange; infer_instance

/-- `func (v *myTimer) Finish(t time.Time)`, called when the clock shows `now`. -/
def Finish (v : myTimer) (now t : Time) : myTimer :=
  let v1 := { v with mu := v.mu.Lock }
  let v2 := { v1 with sum := wrap64 (v1.sum + Since now t) }
  let v3 := { v2 with count := wrap64 (v2.count + 1) }
  -- deferred
  { v3 with mu := v3.mu.Unlock }

/-- The call `fmt.Sprintf` of `String`, with its format string. -/
def sprintf (count : Int) (sum : Duration) (avg : Int) : GoString :=
  "\x7b\"Count\": " ++ fmtD count ++ ", \"Sum\": " ++ fmtD sum ++ ", \"Avg\": " ++ fmtD avg ++ "\x7d"

/-- The local variable `avg` of `String` at the `return`: zero unless `count`
is not zero, and then `int(v.sum) / v.count`; `none` is the run-time panic of
the division. -/
def avg (v : myTimer) : Option Int :=
  if v.count ≠ 0 then goDiv v.sum v.count else some 0

/-- `func (v *myTimer) String() string`: the state after the call and the
returned string; `none` is a run-time panic. -/
def String (v : myTimer) : myTimer × Option GoString :=
  let v1 := { v with mu := v.mu.RLock }
  let ret : Option GoString := (avg v1).map fun a => sprintf v1.count v1.sum a
  -- deferred
  ({ v1 with mu := v1.mu.RUnlock }, ret)

/-- The calls `Finish(t)` made one after the other; each pair is the clock
reading at the call and the argument `t`. -/
def finishAll (v : myTimer) : List (Time × Time) → myTimer
  | [] => v
  | c :: cs => finishAll (v.Finish c.1 c.2) cs

end myTimer


/-- The elapsed durations `time.Since(t)` of a list of `Finish` calls. -/
def elapsed (calls : List (Time × Time)) : List Duration :=
  calls.map fun c => Since c.1 c.2

/-- Smallest element of a list of durations (0 for the empty list). -/
def smallest : List Duration → Duration
  | [] => 0
  | d :: ds => ds.foldl min d

/-- Largest element of a list of durations (0 for the empty list). -/
def largest : List Duration → Duration
  | [] => 0
  | d :: ds => ds.foldl max d

/-! ## Calls, panics -/

/-- How a call ends: it returns, or a panic leaves it. -/
inductive Exit where
  | returned
  | panicked
deriving DecidableEq, Repr

/-! ## net/http -/

def StatusOK : Int := 200

def StatusBadRequest : Int := 400

/-- The parts of `*http.Request` the handlers read: `r.Method` and
`r.URL.String()`. -/
structure Request where
  Method : GoString
  URL : GoString
deriving DecidableEq, Repr

/-- Response headers, as key/value pairs. -/
abbrev Header := List (GoString × GoString)

def Header.Del (h : Header) (key : GoString) : Header :=
  h.filter fun kv => kv.1 != key

def Header.Set (h : Header) (key value : GoString) : Header :=
  h.Del key ++ [(key, value)]

/-- An `http.ResponseWriter`: the headers, whether the status line has been
written, the status written and the body written so far. -/
structure ResponseWriter where
  header : Header := []
  wroteHeader : Bool := false
  status : Int := 0
  body : GoString := ""
deriving DecidableEq, Repr

namespace ResponseWriter

/-- The writer the server hands to a handler. -/
def fresh : ResponseWriter := {}

/-- The method `WriteHeader(code)`: only the first call has an effect. -/
def WriteHeader (w : ResponseWriter) (code : Int) : ResponseWriter :=
  if w.wroteHeader then w else { w with wroteHeader := true, status := code }

/-- The method `Write(b)`: writes the status line with `StatusOK` first if no
status was written yet. -/
def Write (w : ResponseWriter) (b : GoString) : ResponseWriter :=
  let w1 := if w.wroteHeader then w else w.WriteHeader StatusOK
  { w1 with body := w1.body ++ b }

/-- The function `http.Error(w, error, code)`: sets the headers of a plain-text
reply, writes the status and prints the message with `fmt.Fprintln`. -/
def Error (w : ResponseWriter) (error : GoString) (code : Int) : ResponseWriter :=
  let h := ((w.header.Del "Content-Length").Set "Content-Type" "text/plain; charset=utf-8").Set
    "X-Content-Type-Options" "nosniff"
  let w1 := { w with header := h }
  let w2 := w1.WriteHeader code
  w2.Write (error ++ "\n")

end ResponseWriter

/-- The result of one call of a handler on a state of type `σ`. -/
structure Reply (σ : Type) where
  exit : Exit
  w : ResponseWriter
  st : σ

/-- An `http.HandlerFunc` acting on a state of type `σ`. -/
abbrev HandlerFunc (σ : Type) := ResponseWriter → Request → σ → Reply σ

/-! ## logrus, prometheus -/

/-- The value of a log field; `seconds d` is the `float64` returned by
`d.Seconds()`. -/
inductive Value where
  | str (s : GoString)
  | int (n : Int)
  | seconds (d : Duration)
deriving DecidableEq, Repr

/-- A `logrus.FieldLogger`: the fields it carries. -/
abbrev Fields := List (GoString × Value)

def Fields.WithField (f : Fields) (key : GoString) (value : Value) : Fields :=
  f.filter (fun kv => kv.1 != key) ++ [(key, value)]

inductive Level where
  | info
  | error
deriving DecidableEq, Repr

/-- A line written by the logger. -/
structure Entry where
  level : Level
  fields : Fields
  msg : GoString
deriving DecidableEq, Repr

/-- A `prometheus.Counter`, by the number of `Inc` calls it received. -/
structure Counter where
  value : Nat := 0
deriving DecidableEq, Repr

def Counter.Inc (c : Counter) : Counter := { c with value := c.value + 1 }

/-- What the runtime supplies during one call of `work`: the result of
`rand.Intn(99)` and the time by which `time.Sleep` overshoots. -/
structure Env where
  intn : Fin 99
  lag : Nat

/-- The local `s` of `work`: `rand.Intn(99) + 1`. -/
def drawn (env : Env) : Int := (env.intn.val : Int) + 1

/-- What a unit of work hands back: a nil error, an error, or a panic. -/
inductive Result where
  | nil
  | error (msg : GoString)
  | panicked
deriving DecidableEq, Repr

/-! ## metrics/prometheus/02/main.go -/

namespace Prometheus

/-- The state the handlers of `main.go` act on: the clock, the timer `t`, the
captured variable `log`, the lines logged so far, the two counters, and
whatever else (`ext`) a handler closes over. -/
structure Proc (σ : Type) where
  clock : Time
  t : myTimer
  log : Fields
  out : List Entry
  reqs : Counter
  errs : Counter
  ext : σ

/-- A unit of work called with a logger. -/
abbrev Work (σ : Type) := Fields → Proc σ → Result × Proc σ

/-- `func work(log logrus.FieldLogger) error`. -/
def work {σ : Type} (env : Env) : Work σ := fun log p =>
  let t0 := p.clock
  let s : Int := drawn env
  let p1 := { p with clock := p.clock + s * 1000000 + env.lag }
  let err := if s ≤ 25 then Result.error "OMG Error!" else Result.nil
  -- deferred
  let line : Entry := ⟨Level.info, log.WithField "work_seconds" (Value.seconds (Since p1.clock t0)), "Work complete"⟩
  (err, { p1 with out := p1.out ++ [line] })

/-- `func timerMiddleware(t *myTimer, hf http.HandlerFunc) http.HandlerFunc`,
with `t` the timer of the state. -/
def timerMiddleware {σ : Type} (hf : HandlerFunc (Proc σ)) : HandlerFunc (Proc σ) := fun w r p =>
  let t0 := p.clock
  let o := hf w r p
  -- deferred
  { o with st := { o.st with t := o.st.t.Finish o.st.clock t0 } }

/-- The deferred function of the handler, run with the start time `t0` and the
value of `status` at that moment. -/
def handlerExit {σ : Type} (t0 : Time) (status : Int) (p : Proc σ) : Proc σ :=
  let p1 := { p with reqs := p.reqs.Inc }
  let line : Entry := ⟨Level.info,
    (p1.log.WithField "status" (Value.int status)).WithField "duration" (Value.seconds (Since p1.clock t0)), ""⟩
  { p1 with out := p1.out ++ [line] }

/-- The assignment `log = log.WithFields(...)` to the captured variable, with
which a call of the handler starts. -/
def atWork {σ : Type} (r : Request) (p : Proc σ) : Proc σ :=
  { p with log := (p.log.WithField "method" (Value.str r.Method)).WithField "path" (Value.str r.URL) }

/-- The handler returned by `httpLoggingAndMetricsHandler`, with the unit of
work it calls as a parameter. -/
def handlerOf {σ : Type} (wk : Work σ) : HandlerFunc (Proc σ) := fun w r p =>
  let status := StatusOK
  let p1 := atWork r p
  let t0 := p1.clock
  match wk p1.log p1 with
  | (Result.panicked, p2) => ⟨Exit.panicked, w, handlerExit t0 status p2⟩
  | (Result.error _, p2) =>
    let status := StatusBadRequest
    let p3 := { p2 with errs := p2.errs.Inc }
    let w1 := w.Error "Nope" status
    let p4 := { p3 with out := p3.out ++ [⟨Level.error, p3.log, "OMG Error!"⟩] }
    ⟨Exit.returned, w1, handlerExit t0 status p4⟩
  | (Result.nil, p2) =>
    let w1 := w.Write ":-)"
    ⟨Exit.returned, w1, handlerExit t0 status p2⟩

/-- The handler returned by
`func httpLoggingAndMetricsHandler(log logrus.FieldLogger, reqs, errs prometheus.Counter) http.HandlerFunc`. -/
def httpLoggingAndMetricsHandler {σ : Type} (env : Env) : HandlerFunc (Proc σ) :=
  handlerOf (work env)

/-- The handler registered for `/` by `main`. -/
def rootHandler {σ : Type} (env : Env) : HandlerFunc (Proc σ) :=
  timerMiddleware (httpLoggingAndMetricsHandler env)

/-- The server passes the requests one after the other to the handler, each
with a fresh writer. -/
def serveAll {σ : Type} (p : Proc σ) : List (Request × Env) → Proc σ
  | [] => p
  | q :: qs => serveAll (httpLoggingAndMetricsHandler q.2 ResponseWriter.fresh q.1 p).st qs

/-- The number of requests whose drawn value is at most 25. -/
def failures (qs : List (Request × Env)) : Nat :=
  (qs.filter fun q => decide (drawn q.2 ≤ 25)).length

end Prometheus

/-! ## metrics/expvar/01/server.go -/

namespace Expvar

/-- The state the handler of `server.go` acts on. -/
structure Proc where
  clock : Time
  log : Fields
  out : List Entry

/-- `func work(log logrus.FieldLogger) error`. -/
def work (env : Env) (log : Fields) (p : Proc) : Result × Proc :=
  let t0 := p.clock
  let s : Int := drawn env
  let p1 := { p with clock := p.clock + s * 1000000 + env.lag }
  let err := if s ≤ 25 then Result.error "OMG Error!" else Result.nil
  -- deferred
  let line : Entry := ⟨Level.info,
    (log.WithField "func" (Value.str "work")).WithField "work_seconds" (Value.seconds (Since p1.clock t0)),
    "Work complete"⟩
  (err, { p1 with out := p1.out ++ [line] })

/-- The deferred function of the handler. -/
def handlerExit (t0 : Time) (status : Int) (p : Proc) : Proc :=
  let line : Entry := ⟨Level.info,
    ((p.log.WithField "func" (Value.str "handler")).WithField "status" (Value.int status)).WithField
      "duration" (Value.seconds (Since p.clock t0)), ""⟩
  { p with out := p.out ++ [line] }

/-- The handler returned by `func httpLogginghandler(log logrus.FieldLogger) http.HandlerFunc`. -/
def httpLogginghandler (env : Env) : HandlerFunc Proc := fun w r p =>
  let status := StatusOK
  let p1 := { p with log := (p.log.WithField "method" (Value.str r.Method)).WithField "path" (Value.str r.URL) }
  let t0 := p1.clock
  match work env p1.log p1 with
  | (Result.panicked, p2) => ⟨Exit.panicked, w, handlerExit t0 status p2⟩
  | (Result.error _, p2) =>
    let status := StatusBadRequest
    let w1 := w.Error "Nope" status
    let p3 := { p2 with out := p2.out ++ [⟨Level.error, p2.log, "OMG Error!"⟩] }
    ⟨Exit.returned, w1, handlerExit t0 status p3⟩
  | (Result.nil, p2) =>
    let w1 := w.Write ":-)"
    ⟨Exit.returned, w1, handlerExit t0 status p2⟩

end Expvar

/-! ## The states at start -/

/-- The state of `main.go` when the server starts to listen. -/
def Prometheus.start : Prometheus.Proc Unit :=
  ⟨0, myTimer.zero, [("app", Value.str "logs-02-server")], [], {}, {}, ()⟩

/-- The state of `server.go` when the server starts to listen. -/
def Expvar.start : Expvar.Proc :=
  ⟨0, [("app", Value.str "logs-02-server")], []⟩

/-! ## The unit of work -/

theorem Prometheus.work_fst {σ : Type} (env : Env) (log : Fields) (p : Prometheus.Proc σ) :
    (Prometheus.work env log p).1 =
      if drawn env ≤ 25 then Result.error "OMG Error!" else Result.nil := rfl

theorem Prometheus.work_counters {σ : Type} (env : Env) (log : Fields) (p : Prometheus.Proc σ) :
    (Prometheus.work env log p).2.reqs = p.reqs ∧ (Prometheus.work env log p).2.errs = p.errs ∧
    (Prometheus.work env log p).2.t = p.t ∧ (Prometheus.work env log p).2.ext = p.ext := by
  simp [Prometheus.work]

theorem Expvar.plain_work_fst (env : Env) (log : Fields) (p : Expvar.Proc) :
    (Expvar.work env log p).1 =
      if drawn env ≤ 25 then Result.error "OMG Error!" else Result.nil := rfl

theorem ResponseWriter.fresh_Error (msg : GoString) (code : Int) :
    (ResponseWriter.fresh.Error msg code).status = code ∧
    (ResponseWriter.fresh.Error msg code).body = msg ++ "\n" := by
  simp [ResponseWriter.Error, ResponseWriter.WriteHeader, ResponseWriter.Write, ResponseWriter.fresh]

theorem ResponseWriter.fresh_Write (b : GoString) :
    (ResponseWriter.fresh.Write b).status = StatusOK ∧ (ResponseWriter.fresh.Write b).body = b := by
  simp [ResponseWriter.WriteHeader, ResponseWriter.Write, ResponseWriter.fresh]

theorem Prometheus.handlerOf_error {σ : Type} (wk : Prometheus.Work σ) (w : ResponseWriter) (r : Request)
    (p : Prometheus.Proc σ) (msg : GoString)
    (h : (wk (Prometheus.atWork r p).log (Prometheus.atWork r p)).1 = Result.error msg) :
    Prometheus.handlerOf wk w r p =
      ⟨Exit.returned, w.Error "Nope" StatusBadRequest,
        Prometheus.handlerExit p.clock StatusBadRequest
          { (wk (Prometheus.atWork r p).log (Prometheus.atWork r p)).2 with
            errs := (wk (Prometheus.atWork r p).log (Prometheus.atWork r p)).2.errs.Inc
            out := (wk (Prometheus.atWork r p).log (Prometheus.atWork r p)).2.out ++
              [⟨Level.error, (wk (Prometheus.atWork r p).log (Prometheus.atWork r p)).2.log, "OMG Error!"⟩] }⟩ := by
  unfold Prometheus.handlerOf
  simp only [Prometheus.atWork] at h ⊢
  generalize wk _ _ = q at h ⊢
  obtain ⟨res, p2⟩ := q
  simp only at h
  subst h
  rfl

theorem Prometheus.handlerOf_nil {σ : Type} (wk : Prometheus.Work σ) (w : ResponseWriter) (r : Request)
    (p : Prometheus.Proc σ)
    (h : (wk (Prometheus.atWork r p).log (Prometheus.atWork r p)).1 = Result.nil) :
    Prometheus.handlerOf wk w r p =
      ⟨Exit.returned, w.Write ":-)",
        Prometheus.handlerExit p.clock StatusOK (wk (Prometheus.atWork r p).log (Prometheus.atWork r p)).2⟩ := by
  unfold Prometheus.handlerOf
  simp only [Prometheus.atWork] at h ⊢
  generalize wk _ _ = q at h ⊢
  obtain ⟨res, p2⟩ := q
  simp only at h
  subst h
  rfl

theorem Prometheus.handlerOf_panicked {σ : Type} (wk : Prometheus.Work σ) (w : ResponseWriter) (r : Request)
    (p : Prometheus.Proc σ)
    (h : (wk (Prometheus.atWork r p).log (Prometheus.atWork r p)).1 = Result.panicked) :
    Prometheus.handlerOf wk w r p =
      ⟨Exit.panicked, w,
        Prometheus.handlerExit p.clock StatusOK (wk (Prometheus.atWork r p).log (Prometheus.atWork r p)).2⟩ := by
  unfold Prometheus.handlerOf
  simp only [Prometheus.atWork] at h ⊢
  generalize wk _ _ = q at h ⊢
  obtain ⟨res, p2⟩ := q
  simp only at h
  subst h
  rfl

/-- The handler of `main.go` on a request whose unit of work fails. -/
theorem Prometheus.handler_of_failure {σ : Type} (env : Env) (w : ResponseWriter) (r : Request)
    (p : Prometheus.Proc σ) (h : drawn env ≤ 25) :
    (Prometheus.httpLoggingAndMetricsHandler env w r p).exit = Exit.returned ∧
    (Prometheus.httpLoggingAndMetricsHandler env w r p).w = w.Error "Nope" StatusBadRequest ∧
    (Prometheus.httpLoggingAndMetricsHandler env w r p).st.errs.value = p.errs.value + 1 ∧
    (Prometheus.httpLoggingAndMetricsHandler env w r p).st.reqs.value = p.reqs.value + 1 := by
  have h1 := Prometheus.work_fst env (Prometheus.atWork r p).log (Prometheus.atWork r p)
  rw [if_pos h] at h1
  have h2 := Prometheus.work_counters env (Prometheus.atWork r p).log (Prometheus.atWork r p)
  unfold Prometheus.httpLoggingAndMetricsHandler
  rw [Prometheus.handlerOf_error _ _ _ _ _ h1]
  simp only [Prometheus.handlerExit, Counter.Inc, h2.1, h2.2.1]
  simp [Prometheus.atWork]

/-- The handler of `main.go` on a request whose unit of work succeeds. -/
theorem Prometheus.handler_of_success {σ : Type} (env : Env) (w : ResponseWriter) (r : Request)
    (p : Prometheus.Proc σ) (h : 25 < drawn env) :
    (Prometheus.httpLoggingAndMetricsHandler env w r p).exit = Exit.returned ∧
    (Prometheus.httpLoggingAndMetricsHandler env w r p).w = w.Write ":-)" ∧
    (Prometheus.httpLoggingAndMetricsHandler env w r p).st.errs.value = p.errs.value ∧
    (Prometheus.httpLoggingAndMetricsHandler env w r p).st.reqs.value = p.reqs.value + 1 := by
  have h1 := Prometheus.work_fst env (Prometheus.atWork r p).log (Prometheus.atWork r p)
  rw [if_neg (not_le.2 h)] at h1
  have h2 := Prometheus.work_counters env (Prometheus.atWork r p).log (Prometheus.atWork r p)
  unfold Prometheus.httpLoggingAndMetricsHandler
  rw [Prometheus.handlerOf_nil _ _ _ _ h1]
  simp only [Prometheus.handlerExit, Counter.Inc, h2.1, h2.2.1]
  simp [Prometheus.atWork]

/-- The handler of `server.go` on a request whose unit of work fails. -/
theorem Expvar.plain_handler_of_failure (env : Env) (w : ResponseWriter) (r : Request)
    (p : Expvar.Proc) (h : drawn env ≤ 25) :
    (Expvar.httpLogginghandler env w r p).exit = Exit.returned ∧
    (Expvar.httpLogginghandler env w r p).w = w.Error "Nope" StatusBadRequest := by
  unfold Expvar.httpLogginghandler
  simp only
  generalize hq : Expvar.work env _ _ = q
  have h1 := Expvar.plain_work_fst env _ _ ▸ congrArg Prod.fst hq
  obtain ⟨res, p2⟩ := q
  rw [if_pos h] at h1
  simp only at h1
  subst h1
  exact ⟨rfl, rfl⟩

/-- The handler of `server.go` on a request whose unit of work succeeds. -/
theorem Expvar.plain_handler_of_success (env : Env) (w : ResponseWriter) (r : Request)
    (p : Expvar.Proc) (h : 25 < drawn env) :
    (Expvar.httpLogginghandler env w r p).exit = Exit.returned ∧
    (Expvar.httpLogginghandler env w r p).w = w.Write ":-)" := by
  unfold Expvar.httpLogginghandler
  simp only
  generalize hq : Expvar.work env _ _ = q
  have h1 := Expvar.plain_work_fst env _ _ ▸ congrArg Prod.fst hq
  obtain ⟨res, p2⟩ := q
  rw [if_neg (not_le.2 h)] at h1
  simp only at h1
  subst h1
  exact ⟨rfl, rfl⟩

theorem Prometheus.handler_counters {σ : Type} (env : Env) (w : ResponseWriter) (r : Request)
    (p : Prometheus.Proc σ) :
    (Prometheus.httpLoggingAndMetricsHandler env w r p).st.reqs.value = p.reqs.value + 1 ∧
    (Prometheus.httpLoggingAndMetricsHandler env w r p).st.errs.value =
      p.errs.value + if drawn env ≤ 25 then 1 else 0 := by
  by_cases h : drawn env ≤ 25
  · have := Prometheus.handler_of_failure env w r p h
    simp [h, this.2.2.1, this.2.2.2]
  · have := Prometheus.handler_of_success env w r p (not_le.1 h)
    simp [h, this.2.2.1, this.2.2.2]

theorem Prometheus.failures_cons (q : Request × Env) (qs : List (Request × Env)) :
    Prometheus.failures (q :: qs) =
      (if drawn q.2 ≤ 25 then 1 else 0) + Prometheus.failures qs := by
  unfold Prometheus.failures
  by_cases h : drawn q.2 ≤ 25
  · rw [List.filter_cons_of_pos (by simpa using h), if_pos h, List.length_cons]; omega
  · rw [List.filter_cons_of_neg (by simpa using h), if_neg h]; omega

theorem Prometheus.serveAll_counters {σ : Type} (qs : List (Request × Env)) (p : Prometheus.Proc σ) :
    (Prometheus.serveAll p qs).reqs.value = p.reqs.value + qs.length ∧
    (Prometheus.serveAll p qs).errs.value = p.errs.value + Prometheus.failures qs := by
  induction qs generalizing p with
  | nil => exact ⟨rfl, rfl⟩
  | cons q qs ih =>
    have hc := Prometheus.handler_counters q.2 ResponseWriter.fresh q.1 p
    have hi := ih (Prometheus.httpLoggingAndMetricsHandler q.2 ResponseWriter.fresh q.1 p).st
    have hs : Prometheus.serveAll p (q :: qs) =
        Prometheus.serveAll (Prometheus.httpLoggingAndMetricsHandler q.2 ResponseWriter.fresh q.1 p).st qs := rfl
    rw [hs, hi.1, hi.2, hc.1, hc.2, Prometheus.failures_cons, List.length_cons]
    constructor <;> omega

/-! ## C1, C2: one request -/

/-- C1, as stated, fails: with the drawn value 10 the body the handler of `main.go`
writes is `Nope` followed by a line feed, not `Nope`. -/
theorem failure_body_is_not_Nope :
    drawn ⟨⟨9, by decide⟩, 0⟩ = 10 ∧
    (Prometheus.httpLoggingAndMetricsHandler ⟨⟨9, by decide⟩, 0⟩ ResponseWriter.fresh ⟨"GET", "/"⟩
      Prometheus.start).w.body = "Nope\n" ∧
    (Prometheus.httpLoggingAndMetricsHandler ⟨⟨9, by decide⟩, 0⟩ ResponseWriter.fresh ⟨"GET", "/"⟩
      Prometheus.start).w.body ≠ "Nope" := by
  decide

/-- C1 (amended): for every request and every drawn value `s` with `s ≤ 25`, the
handler built by `httpLoggingAndMetricsHandler` returns, responds with status 400 and the body
`Nope` followed by a line feed, and increments the error counter and the request counter by
exactly 1 each; the handler built by `httpLogginghandler` gives the same status and body. -/
theorem failure_reply {σ : Type} (env : Env) (r : Request) (p : Prometheus.Proc σ) (q : Expvar.Proc)
    (h : drawn env ≤ 25) :
    (Prometheus.httpLoggingAndMetricsHandler env ResponseWriter.fresh r p).exit = Exit.returned ∧
    (Prometheus.httpLoggingAndMetricsHandler env ResponseWriter.fresh r p).w.status = 400 ∧
    (Prometheus.httpLoggingAndMetricsHandler env ResponseWriter.fresh r p).w.body = "Nope\n" ∧
    (Prometheus.httpLoggingAndMetricsHandler env ResponseWriter.fresh r p).st.errs.value = p.errs.value + 1 ∧
    (Prometheus.httpLoggingAndMetricsHandler env ResponseWriter.fresh r p).st.reqs.value = p.reqs.value + 1 ∧
    (Expvar.httpLogginghandler env ResponseWriter.fresh r q).exit = Exit.returned ∧
    (Expvar.httpLogginghandler env ResponseWriter.fresh r q).w.status = 400 ∧
    (Expvar.httpLogginghandler env ResponseWriter.fresh r q).w.body = "Nope\n" := by
  have hp := Prometheus.handler_of_failure env ResponseWriter.fresh r p h
  have he := Expvar.plain_handler_of_failure env ResponseWriter.fresh r q h
  have hw := ResponseWriter.fresh_Error "Nope" StatusBadRequest
  refine ⟨hp.1, ?_, ?_, hp.2.2.1, hp.2.2.2, he.1, ?_, ?_⟩
  · rw [hp.2.1, hw.1]; rfl
  · rw [hp.2.1, hw.2]; rfl
  · rw [he.2, hw.1]; rfl
  · rw [he.2, hw.2]; rfl

/-- Witness of `failure_reply` at the drawn value 10, on the states at start. -/
theorem failure_reply_witness :
    drawn ⟨⟨9, by decide⟩, 0⟩ ≤ 25 ∧
    (Prometheus.httpLoggingAndMetricsHandler ⟨⟨9, by decide⟩, 0⟩ ResponseWriter.fresh ⟨"GET", "/"⟩
      Prometheus.start).w.status = 400 ∧
    (Prometheus.httpLoggingAndMetricsHandler ⟨⟨9, by decide⟩, 0⟩ ResponseWriter.fresh ⟨"GET", "/"⟩
      Prometheus.start).st.errs.value = Prometheus.start.errs.value + 1 ∧
    (Expvar.httpLogginghandler ⟨⟨9, by decide⟩, 0⟩ ResponseWriter.fresh ⟨"GET", "/"⟩
      Expvar.start).w.body = "Nope\n" :=
  have h := failure_reply ⟨⟨9, by decide⟩, 0⟩ ⟨"GET", "/"⟩ Prometheus.start Expvar.start (by decide)
  ⟨by decide, h.2.1, h.2.2.2.1, h.2.2.2.2.2.2.2⟩

/-- C2: for every request and every drawn value `s` with `s > 25`, the handler built
by `httpLoggingAndMetricsHandler` returns, responds with status 200 and the body `:-)`, leaves
the error counter unchanged and increments the request counter by exactly 1; the handler built
by `httpLogginghandler` gives the same status and body. -/
theorem success_reply {σ : Type} (env : Env) (r : Request) (p : Prometheus.Proc σ) (q : Expvar.Proc)
    (h : 25 < drawn env) :
    (Prometheus.httpLoggingAndMetricsHandler env ResponseWriter.fresh r p).exit = Exit.returned ∧
    (Prometheus.httpLoggingAndMetricsHandler env ResponseWriter.fresh r p).w.status = 200 ∧
    (Prometheus.httpLoggingAndMetricsHandler env ResponseWriter.fresh r p).w.body = ":-)" ∧
    (Prometheus.httpLoggingAndMetricsHandler env ResponseWriter.fresh r p).st.errs = p.errs ∧
    (Prometheus.httpLoggingAndMetricsHandler env ResponseWriter.fresh r p).st.reqs.value = p.reqs.value + 1 ∧
    (Expvar.httpLogginghandler env ResponseWriter.fresh r q).exit = Exit.returned ∧
    (Expvar.httpLogginghandler env ResponseWriter.fresh r q).w.status = 200 ∧
    (Expvar.httpLogginghandler env ResponseWriter.fresh r q).w.body = ":-)" := by
  have hp := Prometheus.handler_of_success env ResponseWriter.fresh r p h
  have he := Expvar.plain_handler_of_success env ResponseWriter.fresh r q h
  have hw := ResponseWriter.fresh_Write ":-)"
  refine ⟨hp.1, ?_, ?_, ?_, hp.2.2.2, he.1, ?_, ?_⟩
  · rw [hp.2.1, hw.1]; rfl
  · rw [hp.2.1, hw.2]
  · have := hp.2.2.1
    rcases hx : (Prometheus.httpLoggingAndMetricsHandler env ResponseWriter.fresh r p).st.errs with ⟨a⟩
    rcases hy : p.errs with ⟨b⟩
    simp [hx, hy] at this
    simp [this]
  · rw [he.2, hw.1]; rfl
  · rw [he.2, hw.2]

/-- Witness of `success_reply` at the drawn value 90, on the states at start. -/
theorem success_reply_witness :
    25 < drawn ⟨⟨89, by decide⟩, 0⟩ ∧
    (Prometheus.httpLoggingAndMetricsHandler ⟨⟨89, by decide⟩, 0⟩ ResponseWriter.fresh ⟨"GET", "/"⟩
      Prometheus.start).w.status = 200 ∧
    (Prometheus.httpLoggingAndMetricsHandler ⟨⟨89, by decide⟩, 0⟩ ResponseWriter.fresh ⟨"GET", "/"⟩
      Prometheus.start).w.body = ":-)" ∧
    (Expvar.httpLogginghandler ⟨⟨89, by decide⟩, 0⟩ ResponseWriter.fresh ⟨"GET", "/"⟩
      Expvar.start).w.body = ":-)" :=
  have h := success_reply ⟨⟨89, by decide⟩, 0⟩ ⟨"GET", "/"⟩ Prometheus.start Expvar.start (by decide)
  ⟨by decide, h.2.1, h.2.2.1, h.2.2.2.2.2.2.2⟩

/-! ## C3: a sequence of requests -/

/-- C3: for every finite sequence of N requests handled by `httpLoggingAndMetricsHandler` from
zero counters, of which exactly F have a drawn value `≤ 25`, the request counter ends at N and
the error counter at F. -/
theorem counters_after_requests {σ : Type} (p : Prometheus.Proc σ) (qs : List (Request × Env))
    (hr : p.reqs.value = 0) (he : p.errs.value = 0) :
    (Prometheus.serveAll p qs).reqs.value = qs.length ∧
    (Prometheus.serveAll p qs).errs.value = Prometheus.failures qs := by
  have h := Prometheus.serveAll_counters qs p
  rw [hr, he] at h
  simpa using h

/-- Witness of `counters_after_requests`: three requests with drawn values 10, 90 and 25. -/
theorem counters_after_requests_witness :
    Prometheus.start.reqs.value = 0 ∧ Prometheus.start.errs.value = 0 ∧
    (Prometheus.serveAll Prometheus.start
      [(⟨"GET", "/"⟩, ⟨⟨9, by decide⟩, 0⟩), (⟨"GET", "/a"⟩, ⟨⟨89, by decide⟩, 5⟩),
       (⟨"POST", "/"⟩, ⟨⟨24, by decide⟩, 0⟩)]).reqs.value = 3 ∧
    (Prometheus.serveAll Prometheus.start
      [(⟨"GET", "/"⟩, ⟨⟨9, by decide⟩, 0⟩), (⟨"GET", "/a"⟩, ⟨⟨89, by decide⟩, 5⟩),
       (⟨"POST", "/"⟩, ⟨⟨24, by decide⟩, 0⟩)]).errs.value = 2 :=
  have h := counters_after_requests Prometheus.start
    [(⟨"GET", "/"⟩, ⟨⟨9, by decide⟩, 0⟩), (⟨"GET", "/a"⟩, ⟨⟨89, by decide⟩, 5⟩),
     (⟨"POST", "/"⟩, ⟨⟨24, by decide⟩, 0⟩)] rfl rfl
  ⟨rfl, rfl, h.1, h.2⟩

/-! ## Machine arithmetic -/

theorem wrap64_of_inInt64 (x : Int) (h : inInt64 x) : wrap64 x = x := by
  unfold inInt64 minInt64 maxInt64 at h
  unfold wrap64
  omega

theorem wrap64_inInt64 (x : Int) : inInt64 (wrap64 x) := by
  unfold inInt64 minInt64 maxInt64 wrap64
  omega

theorem wrap64_add_left (a b : Int) : wrap64 (wrap64 a + b) = wrap64 (a + b) := by
  unfold wrap64
  omega

/-- Truncated division by a positive divisor, for a dividend that is not negative. -/
theorem tdiv_of_nonneg (s c : Int) (hc : 0 < c) (hs : 0 ≤ s) :
    0 ≤ s.tdiv c ∧ s.tdiv c * c ≤ s ∧ s < (s.tdiv c + 1) * c := by
  rw [Int.tdiv_eq_ediv hs (le_of_lt hc)]
  exact ⟨Int.ediv_nonneg hs (le_of_lt hc), Int.ediv_mul_le s (ne_of_gt hc),
    Int.lt_ediv_add_one_mul_self s hc⟩

/-- Truncated division by a positive divisor, for a dividend that is not positive. -/
theorem tdiv_of_nonpos (s c : Int) (hc : 0 < c) (hs : s ≤ 0) :
    s.tdiv c ≤ 0 ∧ s ≤ s.tdiv c * c ∧ (s.tdiv c - 1) * c < s := by
  have h := tdiv_of_nonneg (-s) c hc (by omega)
  rw [Int.neg_tdiv] at h
  obtain ⟨h1, h2, h3⟩ := h
  refine ⟨by omega, ?_, ?_⟩
  · have : -(s.tdiv c) * c = -(s.tdiv c * c) := by ring
    omega
  · have : (-(s.tdiv c) + 1) * c = -((s.tdiv c - 1) * c) := by ring
    omega

/-- The truncated quotient by a positive divisor lies between zero and the dividend. -/
theorem tdiv_between (s c : Int) (hc : 0 < c) :
    (0 ≤ s → 0 ≤ s.tdiv c ∧ s.tdiv c ≤ s) ∧ (s ≤ 0 → s ≤ s.tdiv c ∧ s.tdiv c ≤ 0) := by
  constructor
  · intro hs
    obtain ⟨h1, h2, _⟩ := tdiv_of_nonneg s c hc hs
    refine ⟨h1, ?_⟩
    have : s.tdiv c * 1 ≤ s.tdiv c * c := Int.mul_le_mul_of_nonneg_left (by omega) h1
    omega
  · intro hs
    obtain ⟨h1, h2, _⟩ := tdiv_of_nonpos s c hc hs
    refine ⟨?_, h1⟩
    have : (-(s.tdiv c)) * 1 ≤ (-(s.tdiv c)) * c := Int.mul_le_mul_of_nonneg_left (by omega) (by omega)
    have e : (-(s.tdiv c)) * c = -(s.tdiv c * c) := by ring
    omega

theorem goDiv_of_pos (s c : Int) (hc : 0 < c) (hs : inInt64 s) : goDiv s c = some (s.tdiv c) := by
  unfold goDiv
  rw [if_neg (ne_of_gt hc)]
  have hb := tdiv_between s c hc
  have hr : inInt64 (s.tdiv c) := by
    unfold inInt64 minInt64 maxInt64 at hs ⊢
    rcases le_total 0 s with h | h
    · have := hb.1 h; omega
    · have := hb.2 h; omega
  rw [wrap64_of_inInt64 _ hr]

/-- If every sample lies between `lo` and `hi`, so does the truncated quotient of their sum by
their number. -/
theorem tdiv_within (s n lo hi : Int) (hn : 0 < n) (hlo : lo * n ≤ s) (hhi : s ≤ hi * n) :
    lo ≤ s.tdiv n ∧ s.tdiv n ≤ hi := by
  rcases le_total 0 s with hs | hs
  · obtain ⟨h1, h2, h3⟩ := tdiv_of_nonneg s n hn hs
    constructor
    · have : lo * n < (s.tdiv n + 1) * n := lt_of_le_of_lt hlo h3
      have := lt_of_mul_lt_mul_right this (le_of_lt hn)
      omega
    · exact le_of_mul_le_mul_right (le_trans h2 hhi) hn
  · obtain ⟨h1, h2, h3⟩ := tdiv_of_nonpos s n hn hs
    constructor
    · exact le_of_mul_le_mul_right (le_trans hlo h2) hn
    · have : (s.tdiv n - 1) * n < hi * n := lt_of_lt_of_le h3 hhi
      have := lt_of_mul_lt_mul_right this (le_of_lt hn)
      omega

theorem sum_ge_of_forall_ge (lo : Int) (ds : List Int) (h : ∀ d ∈ ds, lo ≤ d) :
    lo * ds.length ≤ ds.sum := by
  induction ds with
  | nil => simp
  | cons d ds ih =>
    have h1 := h d (List.mem_cons_self d ds)
    have h2 := ih (fun x hx => h x (List.mem_cons_of_mem d hx))
    simp only [List.length_cons, List.sum_cons, Nat.cast_add, Nat.cast_one]
    have : lo * ((ds.length : Int) + 1) = lo * ds.length + lo := by ring
    omega

theorem sum_le_of_forall_le (hi : Int) (ds : List Int) (h : ∀ d ∈ ds, d ≤ hi) :
    ds.sum ≤ hi * ds.length := by
  induction ds with
  | nil => simp
  | cons d ds ih =>
    have h1 := h d (List.mem_cons_self d ds)
    have h2 := ih (fun x hx => h x (List.mem_cons_of_mem d hx))
    simp only [List.length_cons, List.sum_cons, Nat.cast_add, Nat.cast_one]
    have : hi * ((ds.length : Int) + 1) = hi * ds.length + hi := by ring
    omega

theorem foldl_min_le (ds : List Int) (d : Int) :
    ds.foldl min d ≤ d ∧ ∀ x ∈ ds, ds.foldl min d ≤ x := by
  induction ds generalizing d with
  | nil => simp
  | cons y ys ih =>
    obtain ⟨h1, h2⟩ := ih (min d y)
    simp only [List.foldl_cons, List.mem_cons]
    refine ⟨le_trans h1 (min_le_left d y), ?_⟩
    rintro x (rfl | hx)
    · exact le_trans h1 (min_le_right d x)
    · exact h2 x hx

theorem le_foldl_max (ds : List Int) (d : Int) :
    d ≤ ds.foldl max d ∧ ∀ x ∈ ds, x ≤ ds.foldl max d := by
  induction ds generalizing d with
  | nil => simp
  | cons y ys ih =>
    obtain ⟨h1, h2⟩ := ih (max d y)
    simp only [List.foldl_cons, List.mem_cons]
    refine ⟨le_trans (le_max_left d y) h1, ?_⟩
    rintro x (rfl | hx)
    · exact le_trans (le_max_right d x) h1
    · exact h2 x hx

theorem smallest_le (ds : List Duration) : ∀ x ∈ ds, smallest ds ≤ x := by
  cases ds with
  | nil => simp
  | cons d ds =>
    intro x hx
    rcases List.mem_cons.1 hx with rfl | h
    · exact (foldl_min_le ds x).1
    · exact (foldl_min_le ds d).2 x h

theorem le_largest (ds : List Duration) : ∀ x ∈ ds, x ≤ largest ds := by
  cases ds with
  | nil => simp
  | cons d ds =>
    intro x hx
    rcases List.mem_cons.1 hx with rfl | h
    · exact (le_foldl_max ds x).1
    · exact (le_foldl_max ds d).2 x h

/-! ## myTimer: `Finish` -/

theorem myTimer.Finish_fields (v : myTimer) (now t : Time) :
    (v.Finish now t).count = wrap64 (v.count + 1) ∧
    (v.Finish now t).sum = wrap64 (v.sum + Since now t) ∧
    (v.Finish now t).mu = v.mu.Lock.Unlock :=
  ⟨rfl, rfl, rfl⟩

theorem myTimer.Finish_inRange (v : myTimer) (now t : Time) : (v.Finish now t).inRange :=
  ⟨wrap64_inInt64 _, wrap64_inInt64 _⟩

theorem myTimer.finishAll_fields (calls : List (Time × Time)) (v : myTimer) (hv : v.inRange) :
    (v.finishAll calls).count = wrap64 (v.count + calls.length) ∧
    (v.finishAll calls).sum = wrap64 (v.sum + (elapsed calls).sum) := by
  induction calls generalizing v with
  | nil =>
    simp only [myTimer.finishAll, elapsed, List.length_nil, List.map_nil, List.sum_nil,
      Nat.cast_zero, add_zero]
    exact ⟨(wrap64_of_inInt64 _ hv.1).symm, (wrap64_of_inInt64 _ hv.2).symm⟩
  | cons c cs ih =>
    obtain ⟨h1, h2⟩ := ih (v.Finish c.1 c.2) (myTimer.Finish_inRange v c.1 c.2)
    have hf := myTimer.Finish_fields v c.1 c.2
    have hs : v.finishAll (c :: cs) = (v.Finish c.1 c.2).finishAll cs := rfl
    rw [hs, h1, h2, hf.1, hf.2.1, wrap64_add_left, wrap64_add_left]
    simp only [elapsed, List.length_cons, List.map_cons, List.sum_cons, Nat.cast_add, Nat.cast_one]
    constructor
    · congr 1; ring
    · congr 1; ring

theorem myTimer.zero_inRange : myTimer.zero.inRange := by decide

/-- From the zero value, the fields after a list of `Finish` calls. -/
theorem myTimer.finishAll_zero (calls : List (Time × Time)) :
    (myTimer.zero.finishAll calls).count = wrap64 calls.length ∧
    (myTimer.zero.finishAll calls).sum = wrap64 (elapsed calls).sum := by
  have h := myTimer.finishAll_fields calls myTimer.zero myTimer.zero_inRange
  have hc : myTimer.zero.count = 0 := rfl
  have hs : myTimer.zero.sum = 0 := rfl
  rw [hc, hs, zero_add, zero_add] at h
  exact h

theorem myTimer.String_fst (v : myTimer) : v.String.1 = v := by
  cases v with
  | mk mu count sum =>
    cases mu with
    | mk writer readers => simp [myTimer.String, RWMutex.RLock, RWMutex.RUnlock]

theorem myTimer.String_snd (v : myTimer) :
    v.String.2 = v.avg.map fun a => myTimer.sprintf v.count v.sum a := rfl

theorem myTimer.avg_isSome (v : myTimer) : ∃ a, v.avg = some a := by
  unfold myTimer.avg goDiv
  by_cases h : v.count = 0
  · exact ⟨0, by simp [h]⟩
  · exact ⟨wrap64 (v.sum.tdiv v.count), by simp [h]⟩

/-! ## C4: `Finish` -/

/-- C4, as stated, fails: on a timer whose sum is the largest duration (the state one `Finish`
on the zero value leaves when `time.Since` saturates), `Finish` with an elapsed duration of 1 ns
leaves the sum at the smallest duration, not increased by 1. -/
theorem Finish_sum_overflows :
    myTimer.zero.Finish 0 (-18446744073709551616) = { count := 1, sum := 9223372036854775807 } ∧
    Since 1 0 = 1 ∧
    (myTimer.Finish { count := 1, sum := 9223372036854775807 } 1 0).sum = -9223372036854775808 ∧
    (myTimer.Finish { count := 1, sum := 9223372036854775807 } 1 0).sum ≠
      9223372036854775807 + Since 1 0 := by
  decide

/-- C4 (amended): `Finish` increments `count` by 1 and adds the elapsed duration `d` to `sum`
in 64-bit two's-complement arithmetic, both in the one call; the increase is exactly 1 and
exactly `d` when `count + 1` and `sum + d` are 64-bit values; hence after N calls on the zero
value, with N at most the largest `int` and the total of the durations a 64-bit value,
`count = N` and `sum = d1 + ... + dN`. -/
theorem Finish_count_and_sum (v : myTimer) (now t : Time) (calls : List (Time × Time)) :
    ((v.Finish now t).count = wrap64 (v.count + 1) ∧
      (v.Finish now t).sum = wrap64 (v.sum + Since now t)) ∧
    (inInt64 (v.count + 1) → inInt64 (v.sum + Since now t) →
      (v.Finish now t).count = v.count + 1 ∧ (v.Finish now t).sum = v.sum + Since now t) ∧
    ((calls.length : Int) ≤ maxInt64 → inInt64 (elapsed calls).sum →
      (myTimer.zero.finishAll calls).count = calls.length ∧
      (myTimer.zero.finishAll calls).sum = (elapsed calls).sum) := by
  have hf := myTimer.Finish_fields v now t
  refine ⟨⟨hf.1, hf.2.1⟩, ?_, ?_⟩
  · intro hc hs
    rw [hf.1, hf.2.1, wrap64_of_inInt64 _ hc, wrap64_of_inInt64 _ hs]
    exact ⟨rfl, rfl⟩
  · intro hn hs
    have hz := myTimer.finishAll_zero calls
    have hc : inInt64 (calls.length : Int) := by
      unfold inInt64 minInt64
      exact ⟨by omega, hn⟩
    rw [hz.1, hz.2, wrap64_of_inInt64 _ hc, wrap64_of_inInt64 _ hs]
    exact ⟨rfl, rfl⟩

/-- Witness of `Finish_count_and_sum`: one call of 3 ns on the zero value, and the two calls
of 3 ns and 6 ns. -/
theorem Finish_count_and_sum_witness :
    (inInt64 (myTimer.zero.count + 1) ∧ inInt64 (myTimer.zero.sum + Since 5 2) ∧
      (myTimer.zero.Finish 5 2).count = 1 ∧ (myTimer.zero.Finish 5 2).sum = 3) ∧
    ((([(5, 2), (9, 3)] : List (Time × Time)).length : Int) ≤ maxInt64 ∧
      inInt64 (elapsed [(5, 2), (9, 3)]).sum ∧
      (myTimer.zero.finishAll [(5, 2), (9, 3)]).count = 2 ∧
      (myTimer.zero.finishAll [(5, 2), (9, 3)]).sum = 9) :=
  have h := Finish_count_and_sum myTimer.zero 5 2 [(5, 2), (9, 3)]
  ⟨⟨by decide, by decide, h.2.1 (by decide) (by decide)⟩,
    ⟨by decide, by decide, h.2.2 (by decide) (by decide)⟩⟩

/-! ## C5, C6: `String` -/

/-- C5: for every `myTimer` state (with 64-bit fields), `String` returns exactly
`{"Count": c, "Sum": s, "Avg": a}` with `c` the count, `s` the sum in nanoseconds and `a` the
quotient `s / c` truncated toward zero when `c > 0`, `a = 0` when `c = 0`; it never panics on a
zero divisor; on the zero value it returns `{"Count": 0, "Sum": 0, "Avg": 0}`. -/
theorem String_reports (v : myTimer) (h : v.inRange) :
    (0 < v.count → v.String.2 = some ("\x7b\"Count\": " ++ fmtD v.count ++ ", \"Sum\": " ++
      fmtD v.sum ++ ", \"Avg\": " ++ fmtD (v.sum.tdiv v.count) ++ "\x7d")) ∧
    (v.count = 0 → v.String.2 = some ("\x7b\"Count\": " ++ fmtD v.count ++ ", \"Sum\": " ++
      fmtD v.sum ++ ", \"Avg\": " ++ fmtD 0 ++ "\x7d")) ∧
    (∃ s, v.String.2 = some s) ∧
    myTimer.zero.String.2 = some "\x7b\"Count\": 0, \"Sum\": 0, \"Avg\": 0\x7d" := by
  refine ⟨?_, ?_, ?_, by decide⟩
  · intro hc
    rw [myTimer.String_snd, myTimer.avg, if_pos (ne_of_gt hc), goDiv_of_pos _ _ hc h.2]
    rfl
  · intro hc
    rw [myTimer.String_snd, myTimer.avg, if_neg (by simp [hc])]
    rfl
  · obtain ⟨a, ha⟩ := myTimer.avg_isSome v
    exact ⟨myTimer.sprintf v.count v.sum a, by rw [myTimer.String_snd, ha]; rfl⟩

/-- Witness of `String_reports`: three samples of 10 ns in all. -/
theorem String_reports_witness :
    myTimer.inRange { count := 3, sum := 10 } ∧
    (myTimer.String { count := 3, sum := 10 }).2 =
      some "\x7b\"Count\": 3, \"Sum\": 10, \"Avg\": 3\x7d" :=
  ⟨by decide, ((String_reports { count := 3, sum := 10 } (by decide)).1 (by decide)).trans (by decide)⟩

/-- C6: `String` is read-only and idempotent: it leaves the timer (count, sum and mutex) as it
found it, so a second call right after the first returns the same string. -/
theorem String_read_only (v : myTimer) :
    v.String.1 = v ∧ v.String.1.count = v.count ∧ v.String.1.sum = v.sum ∧
    v.String.1.String.2 = v.String.2 := by
  have h := myTimer.String_fst v
  refine ⟨h, ?_, ?_, ?_⟩ <;> rw [h]

/-! ## C10: the average -/

/-- C10: after a non-empty sequence of N `Finish` calls on the zero value (N at most the
largest `int`, the total of the durations a 64-bit value), the `Avg` that `String` reports lies
between the smallest and the largest duration, and when no duration is negative
`Avg * N ≤ sum < (Avg + 1) * N`. -/
theorem average_within_samples (calls : List (Time × Time)) (hne : calls ≠ [])
    (hn : (calls.length : Int) ≤ maxInt64) (ht : inInt64 (elapsed calls).sum) :
    ∃ a : Int,
      (myTimer.zero.finishAll calls).avg = some a ∧
      (myTimer.zero.finishAll calls).String.2 =
        some (myTimer.sprintf calls.length (elapsed calls).sum a) ∧
      smallest (elapsed calls) ≤ a ∧ a ≤ largest (elapsed calls) ∧
      ((∀ d ∈ elapsed calls, 0 ≤ d) →
        a * calls.length ≤ (myTimer.zero.finishAll calls).sum ∧
        (myTimer.zero.finishAll calls).sum < (a + 1) * calls.length) := by
  have hpos : 0 < (calls.length : Int) := by
    have : 0 < calls.length := List.length_pos.2 hne
    omega
  have hc : inInt64 (calls.length : Int) := by
    unfold inInt64 minInt64
    exact ⟨by omega, hn⟩
  have hz := myTimer.finishAll_zero calls
  rw [wrap64_of_inInt64 _ hc, wrap64_of_inInt64 _ ht] at hz
  have hlen : (elapsed calls).length = calls.length := by simp [elapsed]
  refine ⟨(elapsed calls).sum.tdiv calls.length, ?_, ?_, ?_, ?_, ?_⟩
  · rw [myTimer.avg, hz.1, hz.2, if_pos (ne_of_gt hpos), goDiv_of_pos _ _ hpos ht]
  · rw [myTimer.String_snd, myTimer.avg, hz.1, hz.2, if_pos (ne_of_gt hpos),
      goDiv_of_pos _ _ hpos ht]
    rfl
  · have := sum_ge_of_forall_ge (smallest (elapsed calls)) (elapsed calls) (smallest_le _)
    have := sum_le_of_forall_le (largest (elapsed calls)) (elapsed calls) (le_largest _)
    rw [hlen] at *
    exact (tdiv_within _ _ _ _ hpos (by assumption) (by assumption)).1
  · have := sum_ge_of_forall_ge (smallest (elapsed calls)) (elapsed calls) (smallest_le _)
    have := sum_le_of_forall_le (largest (elapsed calls)) (elapsed calls) (le_largest _)
    rw [hlen] at *
    exact (tdiv_within _ _ _ _ hpos (by assumption) (by assumption)).2
  · intro hd
    have h0 := sum_ge_of_forall_ge 0 (elapsed calls) hd
    rw [zero_mul] at h0
    have := tdiv_of_nonneg _ _ hpos h0
    rw [hz.2]
    exact ⟨this.2.1, this.2.2⟩

/-- Witness of `average_within_samples`: the two calls of 3 ns and 6 ns. -/
theorem average_within_samples_witness :
    ([(5, 2), (9, 3)] : List (Time × Time)) ≠ [] ∧
    (([(5, 2), (9, 3)] : List (Time × Time)).length : Int) ≤ maxInt64 ∧
    inInt64 (elapsed [(5, 2), (9, 3)]).sum ∧
    ∃ a : Int,
      (myTimer.zero.finishAll [(5, 2), (9, 3)]).avg = some a ∧
      (myTimer.zero.finishAll [(5, 2), (9, 3)]).String.2 =
        some (myTimer.sprintf ([(5, 2), (9, 3)] : List (Time × Time)).length
          (elapsed [(5, 2), (9, 3)]).sum a) ∧
      smallest (elapsed [(5, 2), (9, 3)]) ≤ a ∧ a ≤ largest (elapsed [(5, 2), (9, 3)]) ∧
      ((∀ d ∈ elapsed [(5, 2), (9, 3)], 0 ≤ d) →
        a * ([(5, 2), (9, 3)] : List (Time × Time)).length ≤
          (myTimer.zero.finishAll [(5, 2), (9, 3)]).sum ∧
        (myTimer.zero.finishAll [(5, 2), (9, 3)]).sum <
          (a + 1) * ([(5, 2), (9, 3)] : List (Time × Time)).length) :=
  ⟨by decide, by decide, by decide,
    average_within_samples [(5, 2), (9, 3)] (by decide) (by decide) (by decide)⟩

/-! ## C7, C8: the deferred calls -/

/-- C7: for every inner handler `hf` that returns and every request, the handler returned by
`timerMiddleware` returns with the writer exactly as one call of `hf` on the same writer and
request left it, and with the state one call of `hf` left, to whose timer one `Finish` has been
applied: at the clock reading after `hf`, with the start time read before `hf`; whatever the
status `hf` wrote. -/
theorem timerMiddleware_wraps {σ : Type} (hf : HandlerFunc (Prometheus.Proc σ)) (w : ResponseWriter)
    (r : Request) (p : Prometheus.Proc σ) (h : (hf w r p).exit = Exit.returned) :
    (Prometheus.timerMiddleware hf w r p).exit = Exit.returned ∧
    (Prometheus.timerMiddleware hf w r p).w = (hf w r p).w ∧
    (Prometheus.timerMiddleware hf w r p).st =
      { (hf w r p).st with t := (hf w r p).st.t.Finish (hf w r p).st.clock p.clock } ∧
    (Prometheus.timerMiddleware hf w r p).st.t.count = wrap64 ((hf w r p).st.t.count + 1) ∧
    (Prometheus.timerMiddleware hf w r p).st.t.sum =
      wrap64 ((hf w r p).st.t.sum + Since (hf w r p).st.clock p.clock) :=
  ⟨h, rfl, rfl, rfl, rfl⟩

/-- Witness of `timerMiddleware_wraps`: the handler of `main.go` as inner handler, at the drawn
value 10, where it replies 400. -/
theorem timerMiddleware_wraps_witness :
    (Prometheus.httpLoggingAndMetricsHandler ⟨⟨9, by decide⟩, 7⟩ ResponseWriter.fresh ⟨"GET", "/"⟩
      Prometheus.start).exit = Exit.returned ∧
    (Prometheus.timerMiddleware (Prometheus.httpLoggingAndMetricsHandler ⟨⟨9, by decide⟩, 7⟩)
      ResponseWriter.fresh ⟨"GET", "/"⟩ Prometheus.start).w.status = 400 ∧
    (Prometheus.timerMiddleware (Prometheus.httpLoggingAndMetricsHandler ⟨⟨9, by decide⟩, 7⟩)
      ResponseWriter.fresh ⟨"GET", "/"⟩ Prometheus.start).st.t.count = 1 ∧
    (Prometheus.timerMiddleware (Prometheus.httpLoggingAndMetricsHandler ⟨⟨9, by decide⟩, 7⟩)
      ResponseWriter.fresh ⟨"GET", "/"⟩ Prometheus.start).st.t.sum = 10000007 :=
  have h := timerMiddleware_wraps (Prometheus.httpLoggingAndMetricsHandler ⟨⟨9, by decide⟩, 7⟩)
    ResponseWriter.fresh ⟨"GET", "/"⟩ Prometheus.start (by decide)
  ⟨by decide, (congrArg ResponseWriter.status h.2.1).trans (by decide), h.2.2.2.1.trans (by decide),
    h.2.2.2.2.trans (by decide)⟩

/-- C8: if the inner handler panics, the handler returned by `timerMiddleware` applies one
`Finish` to the timer (count incremented once, by 1 when `count + 1` is a 64-bit value) and
then panics itself; if the unit of work panics, the deferred function of the handler of
`main.go` still increments the request counter by 1, and the handler panics. -/
theorem deferred_calls_run_on_panic {σ : Type} (hf : HandlerFunc (Prometheus.Proc σ))
    (wk : Prometheus.Work σ) (w : ResponseWriter) (r : Request) (p : Prometheus.Proc σ)
    (hh : (hf w r p).exit = Exit.panicked)
    (hw : (wk (Prometheus.atWork r p).log (Prometheus.atWork r p)).1 = Result.panicked) :
    (Prometheus.timerMiddleware hf w r p).exit = Exit.panicked ∧
    (Prometheus.timerMiddleware hf w r p).st.t =
      (hf w r p).st.t.Finish (hf w r p).st.clock p.clock ∧
    (Prometheus.timerMiddleware hf w r p).st.t.count = wrap64 ((hf w r p).st.t.count + 1) ∧
    (inInt64 ((hf w r p).st.t.count + 1) →
      (Prometheus.timerMiddleware hf w r p).st.t.count = (hf w r p).st.t.count + 1) ∧
    (Prometheus.handlerOf wk w r p).exit = Exit.panicked ∧
    (Prometheus.handlerOf wk w r p).st.reqs.value =
      (wk (Prometheus.atWork r p).log (Prometheus.atWork r p)).2.reqs.value + 1 := by
  refine ⟨hh, rfl, rfl, ?_, ?_, ?_⟩
  · intro hc
    exact (myTimer.Finish_fields _ _ _).1.trans (wrap64_of_inInt64 _ hc)
  · rw [Prometheus.handlerOf_panicked wk w r p hw]
  · rw [Prometheus.handlerOf_panicked wk w r p hw]
    rfl

/-- Witness of `deferred_calls_run_on_panic`: an inner handler and a unit of work that panic at
once, on the state at start. -/
theorem deferred_calls_run_on_panic_witness :
    (Prometheus.timerMiddleware (fun w _ p => ⟨Exit.panicked, w, p⟩) ResponseWriter.fresh
      ⟨"GET", "/"⟩ Prometheus.start).exit = Exit.panicked ∧
    (Prometheus.timerMiddleware (fun w _ p => ⟨Exit.panicked, w, p⟩) ResponseWriter.fresh
      ⟨"GET", "/"⟩ Prometheus.start).st.t.count = 1 ∧
    (Prometheus.handlerOf (fun _ p => (Result.panicked, p)) ResponseWriter.fresh
      ⟨"GET", "/"⟩ Prometheus.start).exit = Exit.panicked ∧
    (Prometheus.handlerOf (fun _ p => (Result.panicked, p)) ResponseWriter.fresh
      ⟨"GET", "/"⟩ Prometheus.start).st.reqs.value = 1 :=
  have h := deferred_calls_run_on_panic (fun w _ p => ⟨Exit.panicked, w, p⟩)
    (fun _ p => (Result.panicked, p)) ResponseWriter.fresh ⟨"GET", "/"⟩ Prometheus.start rfl rfl
  ⟨h.1, h.2.2.2.1 (by decide), h.2.2.2.2.1, h.2.2.2.2.2⟩

/-! ## C9: the drawn value -/

/-- C9 fails on the code: `rand.Intn(99) + 1` lies in 1..99, every value of 1..99 is drawn, and
100 is never drawn, the largest result 98 of `rand.Intn(99)` giving 99; both variants of `work`
return an error exactly when the drawn value is at most 25, and nil otherwise. -/
theorem drawn_is_never_100 :
    (∀ env : Env, 1 ≤ drawn env ∧ drawn env ≤ 99) ∧
    (∀ n : Fin 99, ∃ env : Env, drawn env = (n.val : Int) + 1) ∧
    drawn ⟨⟨98, by decide⟩, 0⟩ = 99 ∧
    (¬ ∃ env : Env, drawn env = 100) ∧
    (∀ (env : Env) (log : Fields) (p : Prometheus.Proc Unit),
      (Prometheus.work env log p).1 =
        if drawn env ≤ 25 then Result.error "OMG Error!" else Result.nil) ∧
    (∀ (env : Env) (log : Fields) (p : Expvar.Proc),
      (Expvar.work env log p).1 =
        if drawn env ≤ 25 then Result.error "OMG Error!" else Result.nil) := by
  have hb : ∀ env : Env, 1 ≤ drawn env ∧ drawn env ≤ 99 := by
    intro env
    have := env.intn.isLt
    unfold drawn
    omega
  refine ⟨hb, fun n => ⟨⟨n, 0⟩, rfl⟩, by decide, ?_, fun _ _ _ => rfl, fun _ _ _ => rfl⟩
  rintro ⟨env, he⟩
  have := (hb env).2
  omega
